import Mathlib

/-!
Verification development for the SBA consensus core of dusk-blockchain.

Shallow embedding of the consensus data model and operations:
bytes are `List Nat` (each entry a byte value), machine integers are `Nat`
with explicit `% 2 ^ w` where wrap-around matters, fallible code returns
`Option`/`Except`, and stateful code is explicit state passing.
-/

namespace Dusk

/-- Byte strings are lists of naturals (each intended `< 256`). -/
abbrev Bytes := List Nat

/-- Modelled from the spec: the `pkg/p2p/wire/encoding` package is not under
`src/`; wire encodings follow spec §6 ("bit-exact, little-endian unless
noted").  `leBytes w n` is the `w`-byte little-endian encoding of `n`
(low `8*w` bits). -/
def leBytes : Nat → Nat → Bytes
  | 0, _ => []
  | w + 1, n => n % 256 :: leBytes w (n / 256)

/-- Modelled from the spec: little-endian fixed-width read
(`encoding.ReadUint64LE` and friends are not under `src/`). -/
def readLE : Nat → Bytes → Option (Nat × Bytes)
  | 0, b => some (0, b)
  | _ + 1, [] => none
  | w + 1, x :: r => (readLE w r).map (fun p => (x + 256 * p.1, p.2))

/-- Read exactly `n` raw bytes (the shape of `encoding.ReadBLS` /
`encoding.Read256`, which fill a fixed-size buffer). -/
def readBytesN (n : Nat) (b : Bytes) : Option (Bytes × Bytes) :=
  if n ≤ b.length then some (b.take n, b.drop n) else none

/-- Modelled from the spec: `encoding.WriteVarInt` is not under `src/`;
the varint is the Bitcoin CompactSize form used by the wire encoding
(single byte below `0xFD`, else a marker byte and a fixed-width LE value). -/
def writeVarInt (n : Nat) : Bytes :=
  if n < 0xFD then [n]
  else if n < 0x10000 then 0xFD :: leBytes 2 n
  else if n < 0x100000000 then 0xFE :: leBytes 4 n
  else 0xFF :: leBytes 8 (n % 2 ^ 64)

/-- Modelled from the spec: `encoding.ReadVarInt` is not under `src/`. -/
def readVarInt : Bytes → Option (Nat × Bytes)
  | [] => none
  | x :: r =>
    if x < 0xFD then some (x, r)
    else if x = 0xFD then readLE 2 r
    else if x = 0xFE then readLE 4 r
    else readLE 8 r

/-- Modelled from the spec: `encoding.WriteVarBytes` — varint length prefix
followed by the raw bytes. -/
def writeVarBytes (b : Bytes) : Bytes :=
  writeVarInt b.length ++ b

/-- Modelled from the spec: `encoding.ReadVarBytes`. -/
def readVarBytes (x : Bytes) : Option (Bytes × Bytes) :=
  match readVarInt x with
  | none => none
  | some (n, r) => readBytesN n r

/-- `big.Int.SetBytes`: interpret a byte string as a big-endian integer
(used by `Agreement.SetSignature` for the `Repr` field). -/
def bytesToNatBE (b : Bytes) : Nat :=
  b.foldl (fun acc x => acc * 256 + x) 0

/-- Consensus message header (spec §3): round, step, block hash and
sender BLS key. -/
structure Header where
  pubKeyBLS : Bytes
  round : Nat
  step : Nat
  blockHash : Bytes
deriving DecidableEq

/-- Modelled from the spec: `header.MarshalSignableVote` is not under
`src/`; spec §6 fixes the signable vote bytes as
`[round: u64 LE][step: u8][block_hash: 32 bytes]`, sender key excluded. -/
def marshalSignableVote (round step : Nat) (blockHash : Bytes) : Bytes :=
  leBytes 8 round ++ [step % 256] ++ blockHash

/-- Modelled from the spec: `header.Marshal` is not under `src/`; spec §6:
`[pubkey_bls: varbytes][round: u64 LE][step: u8][block_hash: 32 bytes]`. -/
def marshalHeader (h : Header) : Bytes :=
  writeVarBytes h.pubKeyBLS ++ leBytes 8 h.round ++ [h.step % 256] ++ h.blockHash

/-- Modelled from the spec: `header.Unmarshal` is not under `src/`. -/
def unmarshalHeader (b : Bytes) : Option (Header × Bytes) :=
  match readVarBytes b with
  | none => none
  | some (pk, r1) =>
    match readLE 8 r1 with
    | none => none
    | some (round, r2) =>
      match r2 with
      | [] => none
      | st :: r3 =>
        match readBytesN 32 r3 with
        | none => none
        | some (bh, r4) => some (⟨pk, round, st, bh⟩, r4)

/-- The BLS library is external (spec §4.7 treats it as an opaque
capability).  `bls.UnmarshalPk` accepts exactly the fixed-length public
key encoding: 129 bytes, the length `Provisioners.GetStake` asserts. -/
def unmarshalPk (b : Bytes) : Option Bytes :=
  if b.length = 129 then some b else none

/-- `bls.UnmarshalSignature`: compressed BLS signatures are 33 bytes
(spec §6). -/
def unmarshalSignature (b : Bytes) : Option Bytes :=
  if b.length = 33 then some b else none

/-- `bls.UnmarshalApk`: aggregated keys use the same fixed-length
encoding as public keys. -/
def unmarshalApk (b : Bytes) : Option Bytes :=
  if b.length = 129 then some b else none

/-- Opaque BLS aggregation (spec §4.7): the embedding is parametric in how
keys and signatures combine; the code fixes only the byte-length
validation around them. -/
structure BLSOps where
  newApk : Bytes → Bytes
  aggApk : Bytes → Bytes → Bytes
  aggSig : Bytes → Bytes → Bytes

/-- `bls.Apk.AggregateBytes`: unmarshal the incoming key, then aggregate. -/
def aggApkBytes (ops : BLSOps) (apk sender : Bytes) : Option Bytes :=
  match unmarshalPk sender with
  | none => none
  | some pk => some (ops.aggApk apk pk)

/-- `bls.Signature.AggregateBytes`: unmarshal the incoming compressed
signature, then aggregate. -/
def aggSigBytes (ops : BLSOps) (sig more : Bytes) : Option Bytes :=
  match unmarshalSignature more with
  | none => none
  | some m => some (ops.aggSig sig m)

/-- `message.StepVotes` (syncservices.go): the aggregated votes for one
reduction step.  `apk` and `signature` are `Option` to model the nil
pointers of a fresh `NewStepVotes`. -/
structure StepVotes where
  apk : Option Bytes
  bitSet : Nat
  signature : Option Bytes
  step : Nat
deriving DecidableEq

/-- `message.NewStepVotes`: nil apk, zero bitset, nil signature, step 0. -/
def newStepVotes : StepVotes :=
  { apk := none, bitSet := 0, signature := none, step := 0 }

/-- `StepVotes.IsEmpty`: a StepVotes is empty iff its apk is nil. -/
def StepVotes.isEmpty (s : StepVotes) : Bool :=
  s.apk == none

/-- `StepVotes.Add` (syncservices.go): first add initializes step, apk and
signature; later adds require the same step and aggregate.  The Go method
mutates in place and returns an error; the model returns the updated value
together with the optional error, keeping any partial update made before
the error, exactly as the source does (step and apk are already written
when the signature unmarshal fails, and the aggregated apk is already
written when the signature aggregation fails).  The nil-signature
dereference Go would hit when `apk` is set but `signature` is not is
modelled as an error value. -/
def StepVotes.add (ops : BLSOps) (s : StepVotes) (signature sender : Bytes) (step : Nat) :
    StepVotes × Option String :=
  match s.apk with
  | none =>
    match unmarshalPk sender with
    | none => (s, some "invalid public key")
    | some pk =>
      let s1 : StepVotes := { s with step := step, apk := some (ops.newApk pk) }
      match unmarshalSignature signature with
      | none => ({ s1 with signature := none }, some "invalid signature")
      | some sig => ({ s1 with signature := some sig }, none)
  | some apk =>
    if step ≠ s.step then
      (s, some "mismatched step in aggregating vote set")
    else
      match aggApkBytes ops apk sender with
      | none => (s, some "invalid public key")
      | some apk1 =>
        let s1 : StepVotes := { s with apk := some apk1 }
        match s.signature with
        | none => (s1, some "nil signature")
        | some sig =>
          match aggSigBytes ops sig signature with
          | none => (s1, some "invalid signature")
          | some sig1 => ({ s1 with signature := some sig1 }, none)

/-- `MarshalStepVotes` (syncservices.go): nil apk or signature is the
"invalid stepVotes" error; otherwise
`[apk: varbytes][bitset: u64 LE][signature: 33 bytes]`.  `Step` is not
serialized. -/
def marshalStepVotes (v : StepVotes) : Option Bytes :=
  match v.apk, v.signature with
  | some apk, some sig => some (writeVarBytes apk ++ leBytes 8 v.bitSet ++ sig)
  | _, _ => none

/-- `UnmarshalStepVotes` (syncservices.go): starts from `NewStepVotes`,
so the decoded `step` field is 0. -/
def unmarshalStepVotes (b : Bytes) : Option (StepVotes × Bytes) :=
  match readVarBytes b with
  | none => none
  | some (apkB, r1) =>
    match unmarshalApk apkB with
    | none => none
    | some apk =>
      match readLE 8 r1 with
      | none => none
      | some (bs, r2) =>
        match readBytesN 33 r2 with
        | none => none
        | some (sigB, r3) =>
          match unmarshalSignature sigB with
          | none => none
          | some sig =>
            some ({ apk := some apk, bitSet := bs, signature := some sig, step := 0 }, r3)

/-- `message.Agreement`: header, 33-byte outer signature over the signable
vote bytes, the two per-step vote aggregates, and the big-integer
representation of the signature (`Repr`). -/
structure Agreement where
  hdr : Header
  signedVotes : Bytes
  votesPerStep : List StepVotes
  reprVal : Nat
deriving DecidableEq

/-- `Agreement.SetSignature`: store the signature and recompute `Repr` as
its big-endian integer value. -/
def Agreement.setSignature (a : Agreement) (sv : Bytes) : Agreement :=
  { a with signedVotes := sv, reprVal := bytesToNatBE sv }

/-- `Agreement.Equal`: two agreements are equal iff their `Repr` integers
compare equal. -/
def Agreement.equal (a b : Agreement) : Bool :=
  a.reprVal = b.reprVal

/-- `newAgreement` (syncservices.go): empty header, a zeroed 33-byte
signature and an empty `Repr`. -/
def newAgreement : Agreement :=
  { hdr := ⟨[], 0, 0, []⟩
    signedVotes := List.replicate 33 0
    votesPerStep := []
    reprVal := 0 }

/-- `MarshalVotes` (syncservices.go): varint count followed by each
StepVotes; any nil StepVotes aborts with the marshal error. -/
def marshalVotes (votes : List StepVotes) : Option Bytes :=
  match votes.mapM marshalStepVotes with
  | none => none
  | some bs => some (writeVarInt votes.length ++ bs.foldr (· ++ ·) [])

/-- Error kinds of the vote-list and agreement unmarshalers: a low-level
read failure, or the explicit "malformed Agreement message" error. -/
inductive VotesErr where
  | readFail : VotesErr
  | malformed : VotesErr
deriving DecidableEq

/-- The unrolled read loop of `UnmarshalVotes`: read `n` StepVotes. -/
def readStepVotesList : Nat → Bytes → Option (List StepVotes × Bytes)
  | 0, b => some ([], b)
  | n + 1, b =>
    match unmarshalStepVotes b with
    | none => none
    | some (v, r) =>
      match readStepVotesList n r with
      | none => none
      | some (vs, r2) => some (v :: vs, r2)

/-- `UnmarshalVotes` (syncservices.go): read the varint count; an
Agreement can only ever have two StepVotes, so any other count is the
malformed-message error. -/
def unmarshalVotes (b : Bytes) : Except VotesErr (List StepVotes × Bytes) :=
  match readVarInt b with
  | none => .error .readFail
  | some (len, r) =>
    if len ≠ 2 then .error .malformed
    else
      match readStepVotesList len r with
      | none => .error .readFail
      | some (vs, r2) => .ok (vs, r2)

/-- `MarshalAgreement` (syncservices.go): header, outer signature written
raw (`WriteBLS` of the 33 signed-votes bytes), then the vote list. -/
def marshalAgreement (a : Agreement) : Option Bytes :=
  match marshalVotes a.votesPerStep with
  | none => none
  | some vb => some (marshalHeader a.hdr ++ a.signedVotes ++ vb)

/-- `UnmarshalAgreement` (syncservices.go): the body after the header —
33 signature bytes stored via `SetSignature`, then the vote list. -/
def unmarshalAgreement (a : Agreement) (b : Bytes) : Except VotesErr (Agreement × Bytes) :=
  match readBytesN 33 b with
  | none => .error .readFail
  | some (sv, r1) =>
    let a1 := a.setSignature sv
    match unmarshalVotes r1 with
    | .error e => .error e
    | .ok (vs, r2) => .ok ({ a1 with votesPerStep := vs }, r2)

/-- `UnmarshalAgreementMessage` (syncservices.go): header first, then the
agreement body, starting from `newAgreement`. -/
def unmarshalAgreementMessage (b : Bytes) : Except VotesErr (Agreement × Bytes) :=
  match unmarshalHeader b with
  | none => .error .readFail
  | some (h, r1) => unmarshalAgreement { newAgreement with hdr := h } r1

/-- `user.Stake` (blockreduction.go). -/
structure Stake where
  amount : Nat
  startHeight : Nat
  endHeight : Nat
deriving DecidableEq

/-- `user.Member` (blockreduction.go). -/
structure Member where
  publicKeyBLS : Bytes
  stakes : List Stake
deriving DecidableEq

/-- `user.Provisioners` (blockreduction.go): the ordered key set and the
key → member map (the map is modelled as an association list). -/
structure Provisioners where
  set : List Bytes
  members : List (Bytes × Member)
deriving DecidableEq

/-- `Provisioners.SubsetSizeAt` (blockreduction.go): the number of members
with at least one stake active at the round. -/
def subsetSizeAt (p : Provisioners) (round : Nat) : Nat :=
  (p.members.filter (fun m =>
    m.2.stakes.any (fun s => s.startHeight ≤ round && round ≤ s.endHeight))).length

/-- Outcome of `Provisioners.MemberAt`: the explicit out-of-bound error, a
Go runtime panic from an out-of-range slice index, or the member looked up
in the map (`none` when the key is unmapped, i.e. a nil pointer). -/
inductive MemberAtResult where
  | err : MemberAtResult
  | oobPanic : MemberAtResult
  | ok : Option Member → MemberAtResult
deriving DecidableEq

/-- `Provisioners.MemberAt` (blockreduction.go): note the guard in the
source is the strict comparison `i > len(p.Set)`. -/
def memberAt (p : Provisioners) (i : Nat) : MemberAtResult :=
  if i > p.set.length then .err
  else
    match p.set.get? i with
    | none => .oobPanic
    | some k => .ok (p.members.lookup k)

/-- The two failure kinds of `GetStake`. -/
inductive GetStakeErr where
  | malformedKey : GetStakeErr
  | unknownKey : GetStakeErr
deriving DecidableEq

/-- `Provisioners.GetStake` (blockreduction.go): a key whose length is not
129 is the malformed-key error; an unmapped key of the right length is the
unknown-key error; otherwise the sum of all the member stake amounts. -/
def getStake (p : Provisioners) (pubKeyBLS : Bytes) : Except GetStakeErr Nat :=
  if pubKeyBLS.length ≠ 129 then .error .malformedKey
  else
    match p.members.lookup pubKeyBLS with
    | none => .error .unknownKey
    | some m => .ok (m.stakes.foldl (fun acc s => acc + s.amount) 0)

/-- Modelled from the spec: `committee.Handler.CommitteeSize` is not under
`src/`; spec §3 fixes the committee size as
`min(target_size, active_subset_size)`. -/
def committeeSize (p : Provisioners) (round maxSize : Nat) : Nat :=
  min (subsetSizeAt p round) maxSize

/-- `agreement.MaxCommitteeSize` (agreement handler). -/
def maxCommitteeSize : Nat := 64

/-- `handler.Quorum` of the agreement handler:
`int(math.Ceil(float64(CommitteeSize(round, MaxCommitteeSize)) * 0.75))`.
The committee size is at most 64, for which `n * 0.75` is exact in
float64, so the exact rational ceiling is bit-for-bit faithful. -/
def agreementQuorum (p : Provisioners) (round : Nat) : Nat :=
  Nat.ceil ((committeeSize p round maxCommitteeSize : ℚ) * (3 / 4))

/-- Modelled from the spec: `user.VotingCommittee` is not under `src/`; a
committee is the position-ordered list of unique keys with their
multiplicities (spec §3, §4.5). -/
abbrev Committee := List (Bytes × Nat)

/-- Modelled from the spec: `VotingCommittee.IntersectCluster` — each set
bit of the bitset selects the committee key at that position, keeping its
multiplicity (spec §4.5 step c). -/
def intersectCluster (c : Committee) (bitset : Nat) : Committee :=
  (c.enum.filter (fun q => bitset.testBit q.1)).map (·.2)

/-- `Cluster.TotalOccurrences` of a subcommittee: each voter counts once
per occurrence. -/
def committeeTotalOccurrences (c : Committee) : Nat :=
  (c.map (·.2)).sum

/-- The unique-key set (`subcommittee.Set`) of a subcommittee. -/
def committeeKeys (c : Committee) : List Bytes :=
  c.map (·.1)

/-- `agreement.ReconstructApk` (agreement handler): error on an empty
subcommittee; otherwise unmarshal each key, `NewApk` on the first and
aggregate the rest. -/
def reconstructApk (ops : BLSOps) (sub : List Bytes) : Except String Bytes :=
  match sub with
  | [] => .error "Subcommittee is empty"
  | k0 :: rest =>
    match unmarshalPk k0 with
    | none => .error "invalid public key"
    | some pk0 =>
      rest.foldlM (fun apk k =>
        match unmarshalPk k with
        | none => Except.error "invalid public key"
        | some pk => Except.ok (ops.aggApk apk pk)) (ops.newApk pk0)

/-- The external collaborators of `handler.Verify`: the committee
extraction (sortition, not under `src/`) and the two BLS verification
predicates (`msg.VerifyBLSSignature` and `header.VerifySignatures`, which
spec §4.5 applies to the canonical signable vote bytes). -/
structure AgreementEnv where
  committee : Nat → Nat → Committee
  verifyOuter : Bytes → Bytes → Bytes → Bool
  verifyAgg : Bytes → Bytes → Bytes → Bool

/-- The error kinds of `handler.Verify`. -/
inductive VerifyErr where
  | outerSig : VerifyErr
  | stepOverflow : VerifyErr
  | apkFail : VerifyErr
  | multiSig : VerifyErr
  | voteSetTooSmall : VerifyErr
deriving DecidableEq

/-- `step := hdr.Step - 1 + uint8(i)` of `handler.Verify`, in Go uint8
arithmetic: `(hstep + 255 + i) % 256`. -/
def agreementStep (hstep i : Nat) : Nat :=
  (hstep + 255 + i) % 256

/-- The per-StepVotes loop of `handler.Verify` (agreement handler): at
index `i` the step is `agreementStep hstep i`, and the loop errors out
only when the computed value equals `math.MaxInt8` (127); on success it
accumulates the subcommittee occurrences of each verified StepVotes. -/
def verifyVotesLoop (ops : BLSOps) (env : AgreementEnv) (round hstep : Nat) (blockHash : Bytes) :
    Nat → Nat → List StepVotes → Except VerifyErr Nat
  | _, acc, [] => .ok acc
  | i, acc, v :: rest =>
    let step := agreementStep hstep i
    if step = 127 then .error .stepOverflow
    else
      let sub := intersectCluster (env.committee round step) v.bitSet
      match reconstructApk ops (committeeKeys sub) with
      | .error _ => .error .apkFail
      | .ok apk =>
        if env.verifyAgg apk (marshalSignableVote round step blockHash) (v.signature.getD []) then
          verifyVotesLoop ops env round hstep blockHash
            (i + 1) (acc + committeeTotalOccurrences sub) rest
        else .error .multiSig

/-- `handler.Verify` (agreement handler): outer signature over the
signable vote bytes, then the per-StepVotes loop, then the quorum bound on
the total number of voters. -/
def agreementVerify (ops : BLSOps) (env : AgreementEnv) (p : Provisioners) (a : Agreement) :
    Except VerifyErr Unit :=
  if ¬ env.verifyOuter a.hdr.pubKeyBLS
      (marshalSignableVote a.hdr.round a.hdr.step a.hdr.blockHash) a.signedVotes then
    .error .outerSig
  else
    match verifyVotesLoop ops env a.hdr.round a.hdr.step a.hdr.blockHash 0 0 a.votesPerStep with
    | .error e => .error e
    | .ok allVoters =>
      if allVoters < agreementQuorum p a.hdr.round then .error .voteSetTooSmall
      else .ok ()

/-- Modelled from the spec: `sortedset.Cluster` is not under `src/`; spec
§4.3: a multiset over BLS keys carrying `total_occurrences()`.  The model
keeps the list of insertions. -/
abbrev Cluster := List Bytes

/-- `Cluster.TotalOccurrences`. -/
def clusterTotalOccurrences (c : Cluster) : Nat :=
  c.length

/-- The unique-key set (`cluster.Set`) of a cluster. -/
def clusterSet (c : Cluster) : List Bytes :=
  c.dedup

/-- The parts of `reduction.Handler` the firststep aggregator calls; the
handler is not under `src/`, so the aggregator is parametric in them:
`VotesFor` (the committee multiplicity of a key at a round and step),
`Quorum`, and `Committee(round, step).Bits` applied to a cluster set. -/
structure ReductionHandlerOps where
  votesFor : Bytes → Nat → Nat → Nat
  quorum : Nat → Nat
  committeeBits : Nat → Nat → List Bytes → Nat

/-- `message.Reduction`: a header plus the 33-byte signed hash. -/
structure Reduction where
  hdr : Header
  signedHash : Bytes
deriving DecidableEq

/-- `reduction.HaltMsg`: the outcome hash and the StepVotes list. -/
structure HaltMsg where
  hash : Bytes
  sv : List StepVotes
deriving DecidableEq

/-- The firststep aggregator state: the finished flag and the per-hash
(StepVotes, Cluster) vote sets, keyed by block hash. -/
structure AggState where
  finished : Bool
  voteSets : List (Bytes × (StepVotes × Cluster))
deriving DecidableEq

/-- `newAggregator`: not finished, no vote sets. -/
def newAggregator : AggState :=
  { finished := false, voteSets := [] }

/-- Store a vote set under a hash: replace the existing entry or append a
fresh one (the Go map assignment `a.voteSets[hash] = sv`). -/
def setVoteSet (vs : List (Bytes × (StepVotes × Cluster))) (h : Bytes)
    (e : StepVotes × Cluster) : List (Bytes × (StepVotes × Cluster)) :=
  if (vs.lookup h).isSome then vs.map (fun q => if q.1 = h then (h, e) else q)
  else vs ++ [(h, e)]

/-- `emptyHash` (firststep reducer): 32 zero bytes. -/
def emptyHash : Bytes :=
  List.replicate 32 0

/-- `aggregator.collectVote` (firststep aggregator, part_004): returns the
new state, the message sent on `haltChan` (if any) and the returned error
(if any).  `verifyCandidate` stands for the `verifyCandidateBlock` RPC
round-trip, an external oracle (spec §6).  The StepVotes stored in the
map is a pointer in Go: when `Add` fails on an existing entry the partial
update persists even though the map store is skipped, and `addBitSet`
after the store is visible in the stored entry. -/
def collectVote (ops : BLSOps) (h : ReductionHandlerOps) (verifyCandidate : Bytes → Bool)
    (a : AggState) (ev : Reduction) : AggState × Option HaltMsg × Option String :=
  if a.finished then (a, none, none)
  else
    let hash := ev.hdr.blockHash
    let found := (a.voteSets.lookup hash).isSome
    let svcl := (a.voteSets.lookup hash).getD (newStepVotes, [])
    let r1 := svcl.1.add ops ev.signedHash ev.hdr.pubKeyBLS ev.hdr.step
    match r1.2 with
    | some e =>
      (if found then { a with voteSets := setVoteSet a.voteSets hash (r1.1, svcl.2) } else a,
       none, some e)
    | none =>
      let votes := h.votesFor ev.hdr.pubKeyBLS ev.hdr.round ev.hdr.step
      let cl1 := svcl.2 ++ List.replicate votes ev.hdr.pubKeyBLS
      if clusterTotalOccurrences cl1 ≥ h.quorum ev.hdr.round then
        let sv2 := { r1.1 with bitSet := h.committeeBits ev.hdr.round ev.hdr.step (clusterSet cl1) }
        let a2 : AggState := { finished := true, voteSets := setVoteSet a.voteSets hash (sv2, cl1) }
        if hash ≠ emptyHash then
          if ¬ verifyCandidate hash then
            (a2, some { hash := emptyHash, sv := [] }, none)
          else
            (a2, some { hash := hash, sv := [sv2] }, none)
        else
          (a2, some { hash := hash, sv := [sv2] }, none)
      else
        ({ a with voteSets := setVoteSet a.voteSets hash (r1.1, cl1) }, none, none)

/-- The old-events `Reduction` (part_006): header fields plus the voted
hash and the signed hash. -/
structure ReductionEvent where
  pubKeyBLS : Bytes
  round : Nat
  step : Nat
  votedHash : Bytes
  signedHash : Bytes
deriving DecidableEq

/-- The consensus keys of the signer (only the public key bytes matter to
the embedding). -/
structure ConsensusKeys where
  blsPubKeyBytes : Bytes
deriving DecidableEq

/-- `SignReductionEvent` (part_006): the function builds the signable vote
buffer for `(round, step, voted_hash)` — and then calls
`bls.Sign(sk, pk, ev.VotedHash)`, leaving that buffer unused, exactly as
the source does.  `sign` stands for the compressed output of `bls.Sign`
as a function of the signed message. -/
def signReductionEvent (sign : Bytes → Bytes) (keys : ConsensusKeys) (ev : ReductionEvent) :
    ReductionEvent :=
  let _buf := marshalSignableVote ev.round ev.step ev.votedHash
  { ev with signedHash := sign ev.votedHash, pubKeyBLS := keys.blsPubKeyBytes }

/-! ### Concrete fixtures

Small concrete values used to evaluate the embedded operations at
specific inputs. -/

/-- A 129-byte public-key encoding filled with `v`. -/
def keyW (v : Nat) : Bytes :=
  List.replicate 129 v

/-- A 33-byte compressed-signature encoding filled with `v`. -/
def sigW (v : Nat) : Bytes :=
  List.replicate 33 v

/-- A 32-byte block hash filled with `v`. -/
def hashW (v : Nat) : Bytes :=
  List.replicate 32 v

/-- A concrete BLS instance: `NewApk` is the key itself and aggregation
is concatenation, which keeps every aggregated key observable. -/
def opsW : BLSOps :=
  { newApk := id, aggApk := (· ++ ·), aggSig := (· ++ ·) }

/-- A reduction handler with quorum 3 and committee multiplicity 1. -/
def handlerW : ReductionHandlerOps :=
  { votesFor := fun _ _ _ => 1, quorum := fun _ => 3, committeeBits := fun _ _ _ => 0 }

/-- A reduction handler with quorum 1, so a single vote finishes. -/
def handlerW1 : ReductionHandlerOps :=
  { votesFor := fun _ _ _ => 1, quorum := fun _ => 1, committeeBits := fun _ _ _ => 0 }

/-- An agreement environment whose committees are a single unit-weight
key and whose BLS checks always pass. -/
def envOkW : AgreementEnv :=
  { committee := fun _ _ => [(keyW 0, 1)]
    verifyOuter := fun _ _ _ => true
    verifyAgg := fun _ _ _ => true }

/-- A populated StepVotes whose bitset selects committee position 0. -/
def stepVotesW : StepVotes :=
  { apk := some (keyW 2), bitSet := 1, signature := some (sigW 4), step := 0 }

/-- A Reduction message from the key `keyW 7` at round 1. -/
def reductionW (hash : Bytes) (step : Nat) : Reduction :=
  { hdr := { pubKeyBLS := keyW 7, round := 1, step := step, blockHash := hash }
    signedHash := sigW 9 }

/-- A provisioner member with two stakes totalling 11. -/
def memberW : Member :=
  { publicKeyBLS := keyW 5, stakes := [⟨7, 0, 10⟩, ⟨4, 3, 9⟩] }

/-- A provisioner set containing only `memberW`. -/
def provisionersW : Provisioners :=
  { set := [keyW 5], members := [(keyW 5, memberW)] }

/-- A well-formed concrete Agreement whose StepVotes carry the steps 1
and 2 required by the data-model invariant at header step 2. -/
def agreementW : Agreement :=
  { hdr := { pubKeyBLS := keyW 1, round := 5, step := 2, blockHash := hashW 7 }
    signedVotes := sigW 9
    votesPerStep := [{ stepVotesW with step := 1 }, { stepVotesW with step := 2 }]
    reprVal := bytesToNatBE (sigW 9) }

end Dusk

namespace Dusk

/-- A little-endian fixed-width read undoes the write, returning the value
modulo `2 ^ (8*w)` and the untouched tail. -/
theorem readLE_leBytes (w : Nat) (n : Nat) (rest : Bytes) :
    readLE w (leBytes w n ++ rest) = some (n % 2 ^ (8 * w), rest) := by
  induction w generalizing n with
  | zero => simp [leBytes, readLE, Nat.mod_one]
  | succ w ih =>
    have h : 2 ^ (8 * (w + 1)) = 256 * 2 ^ (8 * w) := by
      rw [Nat.mul_add, Nat.pow_add]; ring
    simp only [leBytes, List.cons_append, readLE, List.append_eq, ih, Option.map_some']
    rw [h, Nat.mod_mul]

/-- Reading exactly the length of a prefix returns that prefix and the tail. -/
theorem readBytesN_append (b rest : Bytes) :
    readBytesN b.length (b ++ rest) = some (b, rest) := by
  simp [readBytesN, List.take_left, List.drop_left]

/-- CompactSize round trip for values below `2 ^ 64`. -/
theorem readVarInt_writeVarInt (n : Nat) (h : n < 2 ^ 64) (rest : Bytes) :
    readVarInt (writeVarInt n ++ rest) = some (n, rest) := by
  unfold writeVarInt
  by_cases h1 : n < 0xFD
  · simp [readVarInt, h1]
  · by_cases h2 : n < 0x10000
    · simp only [if_neg h1, if_pos h2, List.cons_append, readVarInt]
      norm_num [readLE_leBytes]
      omega
    · by_cases h3 : n < 0x100000000
      · simp only [if_neg h1, if_neg h2, if_pos h3, List.cons_append, readVarInt]
        norm_num [readLE_leBytes]
        omega
      · simp only [if_neg h1, if_neg h2, if_neg h3, List.cons_append, readVarInt]
        norm_num [readLE_leBytes]
        omega

/-- VarBytes round trip for payloads shorter than `2 ^ 64`. -/
theorem readVarBytes_writeVarBytes (b : Bytes) (h : b.length < 2 ^ 64) (rest : Bytes) :
    readVarBytes (writeVarBytes b ++ rest) = some (b, rest) := by
  unfold readVarBytes writeVarBytes
  rw [List.append_assoc, readVarInt_writeVarInt b.length h]
  simp [readBytesN_append]

/-- The exact-rational counterpart of `math.Ceil(n * 0.75)` in closed
natural-number form. -/
theorem natCeil_mul_three_quarters (n : Nat) :
    Nat.ceil ((n : ℚ) * (3 / 4)) = (3 * n + 3) / 4 := by
  apply le_antisymm
  · rw [Nat.ceil_le]
    have h : 3 * n ≤ 4 * ((3 * n + 3) / 4) := by omega
    have h2 : ((3 * n : ℕ) : ℚ) ≤ ((4 * ((3 * n + 3) / 4) : ℕ) : ℚ) := by exact_mod_cast h
    push_cast at h2
    linarith
  · rcases Nat.eq_zero_or_pos ((3 * n + 3) / 4) with h0 | hpos
    · simp [h0]
    · obtain ⟨k, hk⟩ : ∃ k, (3 * n + 3) / 4 = k + 1 :=
        ⟨(3 * n + 3) / 4 - 1, by omega⟩
      rw [hk, Nat.add_one_le_iff, Nat.lt_ceil]
      have h4 : 4 * k < 3 * n := by omega
      have h5 : ((4 * k : ℕ) : ℚ) < ((3 * n : ℕ) : ℚ) := by exact_mod_cast h4
      push_cast at h5
      linarith

/-- C4: for every provisioner set and round, the agreement handler quorum
is the ceiling of 0.75 times the committee size for that round capped at
`MaxCommitteeSize = 64` — equivalently the closed form
`(3 * size + 3) / 4` in natural-number division. -/
theorem agreementQuorum_is_ceil_three_quarters_capped (p : Provisioners) (round : Nat) :
    agreementQuorum p round
        = Nat.ceil ((0.75 : ℚ) * ((min (subsetSizeAt p round) 64 : ℕ) : ℚ))
    ∧ agreementQuorum p round = (3 * min (subsetSizeAt p round) 64 + 3) / 4 := by
  constructor
  · unfold agreementQuorum committeeSize maxCommitteeSize
    rw [mul_comm]
    norm_num
  · unfold agreementQuorum committeeSize maxCommitteeSize
    exact natCeil_mul_three_quarters _

/-- C7 counterexample: a key with the spec data-model length of 96 bytes
is rejected as malformed by `GetStake`, contradicting the claim that the
malformed-key error occurs exactly when the length differs from 96. -/
theorem getStake_rejects_spec_length_key :
    (List.replicate 96 0 : Bytes).length = 96 ∧
    getStake { set := [], members := [] } (List.replicate 96 0) = .error .malformedKey := by
  constructor
  · simp
  · rfl

/-- C7 (amended): `GetStake` fails with the malformed-key error exactly
when the key length differs from 129 (the fixed BLS public-key encoding
length in this code), fails with the unknown-key error when a 129-byte
key is not in the member map, and otherwise returns the sum of the
member's stake amounts. -/
theorem getStake_error_characterization (p : Provisioners) (k : Bytes) :
    (getStake p k = .error .malformedKey ↔ k.length ≠ 129) ∧
    (k.length = 129 → p.members.lookup k = none → getStake p k = .error .unknownKey) ∧
    (∀ m, k.length = 129 → p.members.lookup k = some m →
      getStake p k = .ok (m.stakes.foldl (fun acc s => acc + s.amount) 0)) := by
  refine ⟨?_, ?_, ?_⟩
  · by_cases h : k.length = 129
    · cases hl : p.members.lookup k <;> simp [getStake, h, hl]
    · simp [getStake, h]
  · intro h hl
    simp [getStake, h, hl]
  · intro m h hl
    simp [getStake, h, hl]

/-- Witness for the amended C7 statement at a concrete provisioner set:
the member keyed by `keyW 5` holds stakes totalling 11. -/
theorem getStake_error_characterization_witness :
    getStake provisionersW (keyW 5) = .ok 11 := by
  have h := (getStake_error_characterization provisionersW (keyW 5)).2.2 memberW
    (by simp [keyW]) (by decide)
  simpa [memberW] using h

/-- C10 (code_bug evaluation): at the boundary index `i = len(p.Set)` the
guard `i > len(p.Set)` does not fire, so the slice access `p.Set[i]` is
reached out of bounds — a runtime panic, not the out-of-bound error. -/
theorem memberAt_boundary_reaches_oob_access :
    memberAt { set := [], members := [] } 0 = .oobPanic
    ∧ memberAt provisionersW 1 = .oobPanic := by
  constructor
  · decide
  · decide

/-- C5 (code_bug evaluation): probing `SignReductionEvent` with the
signer that returns its message, the signature stored in `SignedHash` at
round 1, step 1 is over the 32-byte voted hash alone, which differs from
the 41-byte canonical signable-vote encoding the function itself builds
and discards. -/
theorem signReductionEvent_signs_votedHash_only :
    (signReductionEvent id { blsPubKeyBytes := keyW 7 }
        { pubKeyBLS := [], round := 1, step := 1, votedHash := hashW 3, signedHash := [] }).signedHash
      = hashW 3
    ∧ hashW 3 ≠ marshalSignableVote 1 1 (hashW 3) := by
  constructor
  · rfl
  · decide

/-- C6: `StepVotes.Add` on an empty StepVotes (nil apk) initializes step,
apk (from the sender key) and signature (from the given signature); on a
non-empty StepVotes a differing step is a hard error leaving the value
unchanged; on a matching step the sender key is aggregated into the apk
and the signature into the aggregate signature. -/
theorem stepVotesAdd_branches (ops : BLSOps) (s : StepVotes) (signature sender : Bytes)
    (step : Nat) :
    (s.apk = none → sender.length = 129 → signature.length = 33 →
      s.add ops signature sender step
        = ({ s with
              step := step
              apk := some (ops.newApk sender)
              signature := some signature }, none)) ∧
    (∀ a, s.apk = some a → step ≠ s.step →
      s.add ops signature sender step
        = (s, some "mismatched step in aggregating vote set")) ∧
    (∀ a sg, s.apk = some a → s.signature = some sg → step = s.step →
      sender.length = 129 → signature.length = 33 →
      s.add ops signature sender step
        = ({ s with
              apk := some (ops.aggApk a sender)
              signature := some (ops.aggSig sg signature) }, none)) := by
  refine ⟨?_, ?_, ?_⟩
  · intro ha hsl hgl
    simp [StepVotes.add, ha, unmarshalPk, unmarshalSignature, hsl, hgl]
  · intro a ha hne
    simp [StepVotes.add, ha, hne]
  · intro a sg ha hsg hst hsl hgl
    simp [StepVotes.add, ha, hsg, hst, aggApkBytes, aggSigBytes, unmarshalPk,
      unmarshalSignature, hsl, hgl]

/-- Witness for C6 at concrete inputs: the initializing branch on a fresh
StepVotes. -/
theorem stepVotesAdd_branches_witness :
    newStepVotes.add opsW (sigW 4) (keyW 2) 3
      = ({ newStepVotes with
            step := 3
            apk := some (opsW.newApk (keyW 2))
            signature := some (sigW 4) }, none) :=
  (stepVotesAdd_branches opsW newStepVotes (sigW 4) (keyW 2) 3).1 rfl
    (by simp [keyW]) (by simp [sigW])

/-- `readStepVotesList` returns exactly as many StepVotes as requested. -/
theorem readStepVotesList_length (n : Nat) (b : Bytes) (vs : List StepVotes) (r : Bytes)
    (h : readStepVotesList n b = some (vs, r)) : vs.length = n := by
  induction n generalizing b vs r with
  | zero =>
    simp only [readStepVotesList, Option.some.injEq, Prod.mk.injEq] at h
    rw [← h.1]
    rfl
  | succ n ih =>
    unfold readStepVotesList at h
    split at h
    · cases h
    · rename_i v r1 heq
      split at h
      · cases h
      · rename_i vs1 r2 heq2
        simp only [Option.some.injEq, Prod.mk.injEq] at h
        rw [← h.1]
        simp [ih _ _ _ heq2]

/-- C9: the Agreement vote-list unmarshaler fails with the
malformed-message error whenever the varint count differs from 2, and a
successful parse always consumed a varint count of exactly 2 and produced
exactly 2 StepVotes. -/
theorem unmarshalVotes_requires_exactly_two (b : Bytes) :
    (∀ l r, readVarInt b = some (l, r) → l ≠ 2 →
      unmarshalVotes b = .error .malformed) ∧
    (∀ vs r2, unmarshalVotes b = .ok (vs, r2) →
      vs.length = 2 ∧ ∃ r, readVarInt b = some (2, r)) := by
  constructor
  · intro l r h hne
    unfold unmarshalVotes
    rw [h]
    simp [hne]
  · intro vs r2 h
    unfold unmarshalVotes at h
    split at h
    · cases h
    · rename_i l r hv
      split at h
      · cases h
      · rename_i hl
        have hl2 : l = 2 := by omega
        subst hl2
        split at h
        · cases h
        · rename_i vs1 r1 hr
          simp only [Except.ok.injEq, Prod.mk.injEq] at h
          refine ⟨?_, r, hv⟩
          rw [← h.1]
          exact readStepVotesList_length 2 r vs1 r1 hr

/-- Witness for C9: the single-byte buffer holding the varint 3 parses as
a count of 3 and is rejected as malformed. -/
theorem unmarshalVotes_requires_exactly_two_witness :
    unmarshalVotes [3] = .error .malformed :=
  (unmarshalVotes_requires_exactly_two [3]).1 3 [] rfl (by omega)

/-- Overwriting an existing key in the vote-set map is visible to a
subsequent lookup. -/
theorem lookup_map_overwrite (vs : List (Bytes × (StepVotes × Cluster))) (k : Bytes)
    (e : StepVotes × Cluster) (hk : (vs.lookup k).isSome = true) :
    (vs.map (fun q => if q.1 = k then (k, e) else q)).lookup k = some e := by
  induction vs with
  | nil => simp [List.lookup] at hk
  | cons x xs ih =>
    obtain ⟨xk, xv⟩ := x
    by_cases hx : xk = k
    · have h2 : List.map (fun q : Bytes × (StepVotes × Cluster) => if q.1 = k then (k, e) else q)
          ((xk, xv) :: xs)
          = (k, e) :: List.map (fun q => if q.1 = k then (k, e) else q) xs := by
        rw [List.map_cons]
        congr 1
        simp [hx]
      rw [h2]
      simp [List.lookup]
    · have h2 : List.map (fun q : Bytes × (StepVotes × Cluster) => if q.1 = k then (k, e) else q)
          ((xk, xv) :: xs)
          = (xk, xv) :: List.map (fun q => if q.1 = k then (k, e) else q) xs := by
        rw [List.map_cons]
        congr 1
        simp [hx]
      have hbeq : (k == xk) = false := by
        simp only [beq_eq_false_iff_ne, ne_eq]
        exact fun hh => hx hh.symm
      rw [h2]
      simp only [List.lookup, hbeq] at hk ⊢
      exact ih hk

/-- Appending a fresh key to the vote-set map is visible to a subsequent
lookup. -/
theorem lookup_append_single (vs : List (Bytes × (StepVotes × Cluster))) (k : Bytes)
    (e : StepVotes × Cluster) :
    (vs ++ [(k, e)]).lookup k = some e ∨ (vs.lookup k).isSome = true := by
  induction vs with
  | nil => left; simp [List.lookup]
  | cons x xs ih =>
    obtain ⟨xk, xv⟩ := x
    by_cases hx : k = xk
    · right
      simp [List.lookup, hx]
    · have hbeq : (k == xk) = false := by simp [hx]
      rcases ih with h1 | h2
      · left
        simp only [List.cons_append, List.lookup, hbeq]
        exact h1
      · right
        simp only [List.lookup, hbeq]
        exact h2

/-- Storing a vote set under a hash makes it the result of looking that
hash up (`a.voteSets[hash] = sv` followed by `a.voteSets[hash]`). -/
theorem lookup_setVoteSet (vs : List (Bytes × (StepVotes × Cluster))) (k : Bytes)
    (e : StepVotes × Cluster) : (setVoteSet vs k e).lookup k = some e := by
  unfold setVoteSet
  split
  · rename_i hs
    exact lookup_map_overwrite vs k e hs
  · rename_i hn
    rcases lookup_append_single vs k e with h1 | h2
    · exact h1
    · exact absurd h2 (by simpa using hn)

/-- A successful `StepVotes.Add` implies the sender and signature bytes
were well-formed and leaves the step equal to the given step with apk and
signature populated. -/
theorem stepVotesAdd_ok_fields (ops : BLSOps) (s : StepVotes) (sig sender : Bytes) (st : Nat)
    (h : (s.add ops sig sender st).2 = none) :
    sender.length = 129 ∧ sig.length = 33 ∧
    (s.add ops sig sender st).1.step = st ∧
    (s.add ops sig sender st).1.apk ≠ none ∧
    (s.add ops sig sender st).1.signature ≠ none := by
  cases ha : s.apk with
  | none =>
    by_cases h129 : sender.length = 129
    · by_cases h33 : sig.length = 33
      · simp [StepVotes.add, ha, unmarshalPk, unmarshalSignature, h129, h33]
      · simp [StepVotes.add, ha, unmarshalPk, unmarshalSignature, h129, h33] at h
    · simp [StepVotes.add, ha, unmarshalPk, h129] at h
  | some a =>
    by_cases hne : st ≠ s.step
    · simp [StepVotes.add, ha, hne] at h
    · have hst : st = s.step := by omega
      by_cases h129 : sender.length = 129
      · cases hg : s.signature with
        | none =>
          simp [StepVotes.add, ha, hne, aggApkBytes, unmarshalPk, h129, hg] at h
        | some g =>
          by_cases h33 : sig.length = 33
          · simp [StepVotes.add, ha, hne, aggApkBytes, aggSigBytes, unmarshalPk,
              unmarshalSignature, h129, h33, hg]
            omega
          · simp [StepVotes.add, ha, hne, aggApkBytes, aggSigBytes, unmarshalPk,
              unmarshalSignature, h129, h33, hg] at h
      · simp [StepVotes.add, ha, hne, aggApkBytes, unmarshalPk, h129] at h

/-- Re-adding the same vote after a successful `StepVotes.Add` aggregates
again without error (the step matches and the bytes are well-formed). -/
theorem stepVotesAdd_ok_again (ops : BLSOps) (s : StepVotes) (sig sender : Bytes) (st : Nat)
    (h : (s.add ops sig sender st).2 = none) :
    ((s.add ops sig sender st).1.add ops sig sender st).2 = none := by
  obtain ⟨h129, h33, hstep, hapk, hsig⟩ := stepVotesAdd_ok_fields ops s sig sender st h
  generalize hs1 : (StepVotes.add ops s sig sender st).1 = s1 at hstep hapk hsig ⊢
  cases ha : s1.apk with
  | none => exact absurd ha hapk
  | some a =>
    cases hg : s1.signature with
    | none => exact absurd hg hsig
    | some g =>
      simp [StepVotes.add, ha, hg, hstep, aggApkBytes, aggSigBytes, unmarshalPk,
        unmarshalSignature, h129, h33]

/-- On an unfinished aggregator the error returned by `collectVote` is
exactly the error of the inner `StepVotes.Add`. -/
theorem collectVote_err_eq_add_err (ops : BLSOps) (h : ReductionHandlerOps)
    (vc : Bytes → Bool) (a : AggState) (ev : Reduction) (hf : a.finished = false) :
    (collectVote ops h vc a ev).2.2
      = (((a.voteSets.lookup ev.hdr.blockHash).getD (newStepVotes, [])).1.add
          ops ev.signedHash ev.hdr.pubKeyBLS ev.hdr.step).2 := by
  unfold collectVote
  rw [hf]
  simp only [Bool.false_eq_true, if_false]
  split
  · rename_i e heq
    rw [heq]
  · rename_i heq
    rw [heq]
    split
    · split
      · split <;> rfl
      · rfl
    · rfl

/-- On an unfinished aggregator whose inner `StepVotes.Add` succeeded but
quorum is not reached, `collectVote` stores the updated vote set and
leaves the accumulator unfinished with no halt and no error. -/
theorem collectVote_below_quorum (ops : BLSOps) (h : ReductionHandlerOps)
    (vc : Bytes → Bool) (a : AggState) (ev : Reduction) (hf : a.finished = false)
    (he : (((a.voteSets.lookup ev.hdr.blockHash).getD (newStepVotes, [])).1.add
        ops ev.signedHash ev.hdr.pubKeyBLS ev.hdr.step).2 = none)
    (hq : ¬ clusterTotalOccurrences
        (((a.voteSets.lookup ev.hdr.blockHash).getD (newStepVotes, [])).2
          ++ List.replicate (h.votesFor ev.hdr.pubKeyBLS ev.hdr.round ev.hdr.step)
              ev.hdr.pubKeyBLS)
        ≥ h.quorum ev.hdr.round) :
    collectVote ops h vc a ev
      = ({ a with
            voteSets := setVoteSet a.voteSets ev.hdr.blockHash
              ((((a.voteSets.lookup ev.hdr.blockHash).getD (newStepVotes, [])).1.add
                  ops ev.signedHash ev.hdr.pubKeyBLS ev.hdr.step).1,
               ((a.voteSets.lookup ev.hdr.blockHash).getD (newStepVotes, [])).2
                 ++ List.replicate (h.votesFor ev.hdr.pubKeyBLS ev.hdr.round ev.hdr.step)
                     ev.hdr.pubKeyBLS) },
         none, none) := by
  unfold collectVote
  rw [hf]
  simp only [Bool.false_eq_true, if_false]
  split
  · rename_i e heq
    rw [heq] at he
    cases he
  · rw [if_neg hq]

/-- On an unfinished aggregator, a successful `StepVotes.Add` that
reaches quorum sets the finished flag. -/
theorem collectVote_at_quorum_finishes (ops : BLSOps) (h : ReductionHandlerOps)
    (vc : Bytes → Bool) (a : AggState) (ev : Reduction) (hf : a.finished = false)
    (he : (((a.voteSets.lookup ev.hdr.blockHash).getD (newStepVotes, [])).1.add
        ops ev.signedHash ev.hdr.pubKeyBLS ev.hdr.step).2 = none)
    (hq : clusterTotalOccurrences
        (((a.voteSets.lookup ev.hdr.blockHash).getD (newStepVotes, [])).2
          ++ List.replicate (h.votesFor ev.hdr.pubKeyBLS ev.hdr.round ev.hdr.step)
              ev.hdr.pubKeyBLS)
        ≥ h.quorum ev.hdr.round) :
    (collectVote ops h vc a ev).1.finished = true := by
  unfold collectVote
  rw [hf]
  simp only [Bool.false_eq_true, if_false]
  split
  · rename_i e heq
    rw [heq] at he
    cases he
  · rw [if_pos hq]
    split
    · split <;> rfl
    · rfl

/-- An unfinished aggregator holding an entry for the message hash whose
`StepVotes.Add` would succeed returns no error from `collectVote`. -/
theorem collectVote_err_none_of_entry (ops : BLSOps) (h : ReductionHandlerOps)
    (vc : Bytes → Bool) (a1 : AggState) (ev : Reduction) {sv : StepVotes} {cl : Cluster}
    (hf : a1.finished = false)
    (hl : a1.voteSets.lookup ev.hdr.blockHash = some (sv, cl))
    (he : (sv.add ops ev.signedHash ev.hdr.pubKeyBLS ev.hdr.step).2 = none) :
    (collectVote ops h vc a1 ev).2.2 = none := by
  rw [collectVote_err_eq_add_err ops h vc a1 ev hf, hl]
  exact he

set_option maxRecDepth 16384 in
/-- C1 (code_bug evaluation): with quorum 1, a single Reduction vote for
the 32-zero hash reaches quorum, and the emitted halt carries the empty
hash together with ONE StepVotes — not the empty StepVotes list required
by the claim and by the comment in the source ("we invoke halt with no
StepVotes"). -/
theorem collectVote_emptyHash_halt_has_stepvotes :
    ((collectVote opsW handlerW1 (fun _ => true) newAggregator (reductionW emptyHash 1)).2.1).map
        (fun hm => (hm.hash, hm.sv.length))
      = some (emptyHash, 1) := by
  decide

set_option maxRecDepth 16384 in
/-- C2 counterexample: below quorum, applying the same Reduction twice
does not leave the accumulator state identical to applying it once — the
cluster occurrences and the aggregated keys grow again. -/
theorem collectVote_twice_changes_state_again :
    (collectVote opsW handlerW (fun _ => true)
        (collectVote opsW handlerW (fun _ => true) newAggregator (reductionW (hashW 1) 1)).1
        (reductionW (hashW 1) 1)).1
      ≠ (collectVote opsW handlerW (fun _ => true) newAggregator (reductionW (hashW 1) 1)).1 := by
  decide

/-- C2 (amended): a second application of the same Reduction is a no-op
exactly in the finished cases — a finished accumulator drops every
message, so once the first application reaches quorum the second changes
nothing; before quorum the duplicate is accepted without error (it is
re-aggregated rather than rejected, which is what the counterexample
exhibits). -/
theorem collectVote_duplicate_noop_iff_finished
    (ops : BLSOps) (h : ReductionHandlerOps) (vc : Bytes → Bool)
    (a : AggState) (ev : Reduction) :
    (a.finished = true → collectVote ops h vc a ev = (a, none, none)) ∧
    ((collectVote ops h vc a ev).1.finished = true →
      collectVote ops h vc (collectVote ops h vc a ev).1 ev
        = ((collectVote ops h vc a ev).1, none, none)) ∧
    ((collectVote ops h vc a ev).2.2 = none →
      (collectVote ops h vc (collectVote ops h vc a ev).1 ev).2.2 = none) := by
  refine ⟨?_, ?_, ?_⟩
  · intro hf
    simp [collectVote, hf]
  · intro hf
    generalize (collectVote ops h vc a ev).1 = st at hf ⊢
    simp [collectVote, hf]
  · intro herr
    by_cases hfin : (collectVote ops h vc a ev).1.finished = true
    · have h2 : collectVote ops h vc (collectVote ops h vc a ev).1 ev
          = ((collectVote ops h vc a ev).1, none, none) := by
        generalize (collectVote ops h vc a ev).1 = st at hfin ⊢
        simp [collectVote, hfin]
      rw [h2]
    · have hfin2 : (collectVote ops h vc a ev).1.finished = false := by
        revert hfin; cases (collectVote ops h vc a ev).1.finished <;> simp
      have haf : a.finished = false := by
        by_contra hc
        have hat : a.finished = true := by revert hc; cases a.finished <;> simp
        have h1 : collectVote ops h vc a ev = (a, none, none) := by
          simp [collectVote, hat]
        rw [h1] at hfin2
        simp only at hfin2
        rw [hat] at hfin2
        cases hfin2
      have he : (((a.voteSets.lookup ev.hdr.blockHash).getD (newStepVotes, [])).1.add
          ops ev.signedHash ev.hdr.pubKeyBLS ev.hdr.step).2 = none := by
        rw [← collectVote_err_eq_add_err ops h vc a ev haf]
        exact herr
      by_cases hq : clusterTotalOccurrences
          (((a.voteSets.lookup ev.hdr.blockHash).getD (newStepVotes, [])).2
            ++ List.replicate (h.votesFor ev.hdr.pubKeyBLS ev.hdr.round ev.hdr.step)
                ev.hdr.pubKeyBLS)
          ≥ h.quorum ev.hdr.round
      · exact absurd (collectVote_at_quorum_finishes ops h vc a ev haf he hq)
          (by simp [hfin2])
      · have hstate := collectVote_below_quorum ops h vc a ev haf he hq
        rw [hstate]
        dsimp only
        exact collectVote_err_none_of_entry ops h vc _ ev haf
          (lookup_setVoteSet a.voteSets ev.hdr.blockHash _)
          (stepVotesAdd_ok_again ops _ _ _ _ he)

set_option maxRecDepth 16384 in
/-- One iteration of the verify loop under the all-pass environment: a
non-127 computed step verifies one unit-weight subcommittee member and
recurses. -/
theorem verifyVotesLoop_okEnv_cons (round hstep i acc : Nat) (bh : Bytes)
    (rest : List StepVotes) (hne : agreementStep hstep i ≠ 127) :
    verifyVotesLoop opsW envOkW round hstep bh i acc (stepVotesW :: rest)
      = verifyVotesLoop opsW envOkW round hstep bh (i + 1) (acc + 1) rest := by
  conv_lhs => rw [verifyVotesLoop]
  rw [if_neg hne]
  rfl

/-- C3 counterexample: at header step 0 the computed first-step value
`header.step - 1` wraps to 255 — outside any meaningful step range — yet
the verify loop does not reject: it checks committees at steps 255 and 0
and succeeds. -/
theorem verify_step_wrap_not_rejected :
    agreementStep 0 0 = 255 ∧
    verifyVotesLoop opsW envOkW 1 0 (hashW 1) 0 0 [stepVotesW, stepVotesW] = .ok 2 := by
  constructor
  · rfl
  · rw [verifyVotesLoop_okEnv_cons 1 0 0 0 (hashW 1) _ (by decide),
        verifyVotesLoop_okEnv_cons 1 0 1 1 (hashW 1) _ (by decide)]
    rfl

/-- C3 (amended): in the non-wrapping range the i-th StepVotes is checked
against the committee at step `header.step - 1 + i`, but the rejection
guard fires only when the computed (mod-256) step equals
`math.MaxInt8 = 127`, i.e. exactly at header steps 127 and 128; a
wrap-around past the u8 boundaries is not rejected. -/
theorem verify_steps_and_overflow_rejection (hstep : Nat) (hs : hstep < 256) :
    (1 ≤ hstep → hstep ≤ 126 →
      agreementStep hstep 0 = hstep - 1 ∧ agreementStep hstep 1 = hstep) ∧
    (verifyVotesLoop opsW envOkW 1 hstep (hashW 1) 0 0 [stepVotesW, stepVotesW]
        = .error .stepOverflow
      ↔ (hstep = 127 ∨ hstep = 128)) := by
  constructor
  · intro h1 h2
    unfold agreementStep
    omega
  · constructor
    · intro hE
      by_contra hne
      push_neg at hne
      have hs0 : agreementStep hstep 0 ≠ 127 := by
        unfold agreementStep
        omega
      have hs1 : agreementStep hstep 1 ≠ 127 := by
        unfold agreementStep
        omega
      rw [verifyVotesLoop_okEnv_cons 1 hstep 0 0 (hashW 1) _ hs0,
          verifyVotesLoop_okEnv_cons 1 hstep 1 1 (hashW 1) _ hs1,
          verifyVotesLoop] at hE
      cases hE
    · intro h
      rcases h with h | h
      · subst h
        rw [verifyVotesLoop_okEnv_cons 1 127 0 0 (hashW 1) _ (by decide)]
        rw [verifyVotesLoop]
        rfl
      · subst h
        rw [verifyVotesLoop]
        rfl

/-- Witness for the amended C3 statement: at header step 128 the verify
loop rejects with the step-overflow error. -/
theorem verify_steps_and_overflow_rejection_witness :
    verifyVotesLoop opsW envOkW 1 128 (hashW 1) 0 0 [stepVotesW, stepVotesW]
      = .error .stepOverflow :=
  (verify_steps_and_overflow_rejection 128 (by omega)).2.mpr (Or.inr rfl)

/-- Header wire round trip: unmarshal undoes marshal for in-range fields,
leaving trailing bytes untouched. -/
theorem unmarshalHeader_marshalHeader (h : Header) (rest : Bytes)
    (hpk : h.pubKeyBLS.length < 2 ^ 64) (hr : h.round < 2 ^ 64) (hs : h.step < 256)
    (hbh : h.blockHash.length = 32) :
    unmarshalHeader (marshalHeader h ++ rest) = some (h, rest) := by
  unfold marshalHeader unmarshalHeader
  simp only [List.append_assoc]
  rw [readVarBytes_writeVarBytes _ hpk]
  dsimp only
  rw [readLE_leBytes]
  dsimp only
  rw [Nat.mod_eq_of_lt (show h.round < 2 ^ (8 * 8) by simpa using hr)]
  dsimp only [List.cons_append]
  simp only [List.nil_append]
  rw [show (32 : Nat) = h.blockHash.length from hbh.symm, readBytesN_append]
  dsimp only
  rw [Nat.mod_eq_of_lt hs]

/-- StepVotes wire round trip: marshal writes apk, bitset and signature
(but not the step), and unmarshal restores them with step 0. -/
theorem unmarshalStepVotes_marshalStepVotes (v : StepVotes) (apk sig : Bytes) (rest : Bytes)
    (ha : v.apk = some apk) (hal : apk.length = 129)
    (hg : v.signature = some sig) (hgl : sig.length = 33)
    (hb : v.bitSet < 2 ^ 64) :
    marshalStepVotes v = some (writeVarBytes apk ++ leBytes 8 v.bitSet ++ sig) ∧
    unmarshalStepVotes ((writeVarBytes apk ++ leBytes 8 v.bitSet ++ sig) ++ rest)
      = some ({ v with step := 0 }, rest) := by
  constructor
  · simp [marshalStepVotes, ha, hg]
  · unfold unmarshalStepVotes
    simp only [List.append_assoc]
    rw [readVarBytes_writeVarBytes _ (by omega)]
    dsimp only
    rw [show unmarshalApk apk = some apk from by simp [unmarshalApk, hal]]
    dsimp only
    rw [readLE_leBytes]
    dsimp only
    rw [Nat.mod_eq_of_lt (show v.bitSet < 2 ^ (8 * 8) by simpa using hb)]
    rw [show (33 : Nat) = sig.length from hgl.symm, readBytesN_append]
    dsimp only
    rw [show unmarshalSignature sig = some sig from by simp [unmarshalSignature, hgl]]
    dsimp only
    rw [← ha, ← hg]

set_option maxRecDepth 65536 in
/-- C8 counterexample: marshal followed by unmarshal is not the identity
on a well-formed Agreement — the StepVotes steps (1 and 2 here) are not
serialized and come back as 0. -/
theorem agreement_roundtrip_not_identity :
    unmarshalAgreementMessage ((marshalAgreement agreementW).getD [])
      = .ok ({ agreementW with votesPerStep := [stepVotesW, stepVotesW] }, []) ∧
    ({ agreementW with votesPerStep := [stepVotesW, stepVotesW] }, ([] : Bytes))
      ≠ (agreementW, ([] : Bytes)) := by
  constructor
  · rfl
  · decide

/-- C8 (amended): marshal followed by unmarshal restores every field of
an Agreement (header, signed votes, `Repr`, and the apk, bitset and
signature of each StepVotes) except the StepVotes `Step` fields, which
are not serialized and come back as 0; the code's `Equal` predicates,
which ignore `Step`, are satisfied by the round trip. -/
theorem agreement_roundtrip_drops_only_step
    (a : Agreement) (v0 v1 : StepVotes) (apk0 sig0 apk1 sig1 : Bytes) (mb : Bytes)
    (hv : a.votesPerStep = [v0, v1])
    (hsv : a.signedVotes.length = 33)
    (hrepr : a.reprVal = bytesToNatBE a.signedVotes)
    (hpk : a.hdr.pubKeyBLS.length < 2 ^ 64) (hr : a.hdr.round < 2 ^ 64)
    (hst : a.hdr.step < 256) (hbh : a.hdr.blockHash.length = 32)
    (ha0 : v0.apk = some apk0) (hal0 : apk0.length = 129)
    (hg0 : v0.signature = some sig0) (hgl0 : sig0.length = 33) (hb0 : v0.bitSet < 2 ^ 64)
    (ha1 : v1.apk = some apk1) (hal1 : apk1.length = 129)
    (hg1 : v1.signature = some sig1) (hgl1 : sig1.length = 33) (hb1 : v1.bitSet < 2 ^ 64)
    (hm : marshalAgreement a = some mb) :
    unmarshalAgreementMessage mb
      = .ok ({ a with votesPerStep := [{ v0 with step := 0 }, { v1 with step := 0 }] }, [])
    ∧ Agreement.equal { a with votesPerStep := [{ v0 with step := 0 }, { v1 with step := 0 }] }
        a = true := by
  have hm0 := unmarshalStepVotes_marshalStepVotes v0 apk0 sig0
    ((writeVarBytes apk1 ++ leBytes 8 v1.bitSet ++ sig1) ++ []) ha0 hal0 hg0 hgl0 hb0
  have hm1 := unmarshalStepVotes_marshalStepVotes v1 apk1 sig1 [] ha1 hal1 hg1 hgl1 hb1
  have hmv : marshalVotes a.votesPerStep
      = some (writeVarInt 2
          ++ ((writeVarBytes apk0 ++ leBytes 8 v0.bitSet ++ sig0)
            ++ ((writeVarBytes apk1 ++ leBytes 8 v1.bitSet ++ sig1) ++ []))) := by
    rw [hv]
    simp only [marshalVotes, List.mapM_cons, List.mapM_nil, hm0.1, hm1.1, Option.pure_def,
      Option.bind_some, Option.bind_eq_bind]
    rfl
  have hmb : mb = marshalHeader a.hdr ++ a.signedVotes
      ++ (writeVarInt 2
          ++ ((writeVarBytes apk0 ++ leBytes 8 v0.bitSet ++ sig0)
            ++ ((writeVarBytes apk1 ++ leBytes 8 v1.bitSet ++ sig1) ++ []))) := by
    unfold marshalAgreement at hm
    rw [hmv] at hm
    simpa using hm.symm
  constructor
  · subst hmb
    unfold unmarshalAgreementMessage
    rw [show marshalHeader a.hdr ++ a.signedVotes ++ _ = marshalHeader a.hdr
        ++ (a.signedVotes ++ (writeVarInt 2
          ++ ((writeVarBytes apk0 ++ leBytes 8 v0.bitSet ++ sig0)
            ++ ((writeVarBytes apk1 ++ leBytes 8 v1.bitSet ++ sig1) ++ []))))
      from by simp only [List.append_assoc]]
    rw [unmarshalHeader_marshalHeader a.hdr _ hpk hr hst hbh]
    dsimp only
    unfold unmarshalAgreement
    rw [show (33 : Nat) = a.signedVotes.length from hsv.symm, readBytesN_append]
    dsimp only
    unfold unmarshalVotes
    rw [readVarInt_writeVarInt 2 (by norm_num)]
    dsimp only
    rw [if_neg (by omega : ¬ (2 : Nat) ≠ 2)]
    unfold readStepVotesList
    rw [hm0.2]
    dsimp only
    unfold readStepVotesList
    rw [hm1.2]
    dsimp only
    unfold readStepVotesList
    dsimp only
    unfold Agreement.setSignature newAgreement
    dsimp only
    rw [← hrepr]
  · simp [Agreement.equal]

set_option maxRecDepth 65536 in
/-- Witness for the amended C8 statement at the concrete `agreementW`:
its two StepVotes carry steps 1 and 2, and the round trip returns them
with step 0, all other fields intact. -/
theorem agreement_roundtrip_drops_only_step_witness :
    unmarshalAgreementMessage ((marshalAgreement agreementW).getD [])
      = .ok ({ agreementW with votesPerStep := [stepVotesW, stepVotesW] }, [])
    ∧ Agreement.equal { agreementW with votesPerStep := [stepVotesW, stepVotesW] }
        agreementW = true :=
  agreement_roundtrip_drops_only_step agreementW
    { stepVotesW with step := 1 } { stepVotesW with step := 2 }
    (keyW 2) (sigW 4) (keyW 2) (sigW 4) ((marshalAgreement agreementW).getD [])
    rfl (by decide) rfl (by decide) (by decide) (by decide) (by decide)
    rfl (by decide) rfl (by decide) (by decide)
    rfl (by decide) rfl (by decide) (by decide)
    (by rfl)

set_option maxRecDepth 16384 in
/-- Witness for the amended C2 statement: with quorum 1 the first
application finishes, and a second application of the same message is a
no-op. -/
theorem collectVote_duplicate_noop_iff_finished_witness :
    collectVote opsW handlerW1 (fun _ => true)
        (collectVote opsW handlerW1 (fun _ => true) newAggregator (reductionW (hashW 1) 1)).1
        (reductionW (hashW 1) 1)
      = ((collectVote opsW handlerW1 (fun _ => true) newAggregator (reductionW (hashW 1) 1)).1,
         none, none) :=
  (collectVote_duplicate_noop_iff_finished opsW handlerW1 (fun _ => true) newAggregator
      (reductionW (hashW 1) 1)).2.1 (by decide)

end Dusk
